import Mathlib

/-!
Verification of the FastAPIBackend media-composition service (`app/main.py`)
against its natural-language specification.

The development shallow-embeds the algorithmic core of the service in Lean:

* the silence-aware audio segmenter (`find_nearest_silence`,
  `smart_split_audio`, lines 1029-1081 of `app/main.py`), with Python floats
  modelled as exact rationals (`ℚ`) — every comparison the proofs depend on is
  far from any rounding boundary of IEEE doubles, so the rational model decides
  identically to the float code;
* the background concatenation job worker (`process_concat_job`,
  lines 743-953), modelled as a pure function from the outcomes of its
  external effects (asset downloads, the ffmpeg subprocess invocations, the
  moviepy re-encode) to the sequence of job-store snapshots it writes;
* the concrete external-tool invocations the worker builds (the ffmpeg
  argument vectors, their subprocess timeouts, and the moviepy
  `write_videofile` keyword arguments);
* the `SplitAudioRequest.parts` field validator (lines 150-157).
-/

namespace FastAPIBackend

/-! ## Silence segmenter

`find_nearest_silence(target_ms, silence_ranges, tolerance_ms=2000)`
(`app/main.py` lines 1029-1042) scans the silence ranges in list order,
keeping the midpoint whose distance to the target is strictly smaller than the
best so far and at most the tolerance.  The running best is an
`Option (point × distance)`; `none` plays the role of Python's
`best_point = None` / `best_distance = inf` initial state.
-/

/-- One iteration state of `find_nearest_silence`: the best point found so far
together with its distance to the target (`none` before any match). -/
def fnsAux (target tol : ℚ) : List (ℚ × ℚ) → Option (ℚ × ℚ) → Option (ℚ × ℚ)
  | [], best => best
  | (s, e) :: rest, best =>
      let mid : ℚ := (s + e) / 2
      let d : ℚ := |mid - target|
      let pick : Bool :=
        match best with
        | none => decide (d ≤ tol)
        | some (_, bd) => decide (d < bd) && decide (d ≤ tol)
      fnsAux target tol rest (if pick then some (mid, d) else best)

/-- `find_nearest_silence` (`app/main.py` 1029-1042): the silence midpoint
nearest to `target` among `ranges`, provided it is within `tol`; `none`
otherwise.  In the source the `tolerance_ms` parameter defaults to `2000`,
but the only caller (`smart_split_audio`) always passes an explicit
tolerance. -/
def find_nearest_silence (target : ℚ) (ranges : List (ℚ × ℚ)) (tol : ℚ) : Option ℚ :=
  (fnsAux target tol ranges none).map Prod.fst

/-- One iteration of the cut loop of `smart_split_audio` (`app/main.py`
1062-1077): from the running `current_start`, compute
`ideal_end = current_start + ideal_segment_length`, the tolerance
`ideal_segment_length * 0.4`, take the nearest silence midpoint within that
tolerance when one exists (the ideal end otherwise), and clamp the result by
`min(actual_end, total_duration)`. -/
def splitNext (total ideal : ℚ) (silences : List (ℚ × ℚ)) (currentStart : ℚ) :
    ℚ :=
  let idealEnd : ℚ := currentStart + ideal
  let tolerance : ℚ := ideal * (2 / 5)
  let actualEnd : ℚ :=
    match find_nearest_silence idealEnd silences tolerance with
    | some p => p
    | none => idealEnd
  -- Python's `min(actual_end, total_duration)`
  if actualEnd ≤ total then actualEnd else total

/-- The loop of `smart_split_audio` (`app/main.py` 1059-1081), parameterised
by the remaining number of internal cuts.  `total` is the full duration
`len(audio)`, `ideal` is `total / num_parts`, `silences` the detected silence
ranges, `currentStart` the running segment start.  The final segment absorbs
the remainder up to `total`. -/
def splitLoop (total ideal : ℚ) (silences : List (ℚ × ℚ)) :
    ℕ → ℚ → List (ℚ × ℚ)
  | 0, currentStart => [(currentStart, total)]
  | n + 1, currentStart =>
      let actualEnd : ℚ := splitNext total ideal silences currentStart
      (currentStart, actualEnd) :: splitLoop total ideal silences n actualEnd

/-- `smart_split_audio` (`app/main.py` 1044-1081) as a function of the total
duration `len(audio)`, the requested part count, and the silence ranges
returned by the external `pydub.silence.detect_silence` call (a collaborator
library, not code of this repository).  Returns the list of
`(start_ms, end_ms)` segments.  Python's `0.4` literal is modelled as the
exact rational `2/5`. -/
def smart_split_audio (total : ℚ) (numParts : ℕ) (silences : List (ℚ × ℚ)) :
    List (ℚ × ℚ) :=
  splitLoop total (total / numParts) silences (numParts - 1) 0

/-- The midpoint `(start + end) / 2` of a silence range, as computed in
`find_nearest_silence`. -/
def silenceMid (r : ℚ × ℚ) : ℚ := (r.1 + r.2) / 2

/-- The distance of a silence range's midpoint from the target, as computed in
`find_nearest_silence`. -/
def silenceDist (target : ℚ) (r : ℚ × ℚ) : ℚ := |silenceMid r - target|

lemma fnsAux_cons_none (target tol : ℚ) (r : ℚ × ℚ) (rest : List (ℚ × ℚ)) :
    fnsAux target tol (r :: rest) none =
      fnsAux target tol rest
        (if silenceDist target r ≤ tol
          then some (silenceMid r, silenceDist target r) else none) := by
  cases r with
  | mk s e => simp [fnsAux, silenceMid, silenceDist]

lemma fnsAux_cons_some (target tol : ℚ) (r : ℚ × ℚ) (rest : List (ℚ × ℚ))
    (bp bd : ℚ) :
    fnsAux target tol (r :: rest) (some (bp, bd)) =
      fnsAux target tol rest
        (if silenceDist target r < bd ∧ silenceDist target r ≤ tol
          then some (silenceMid r, silenceDist target r) else some (bp, bd)) := by
  cases r with
  | mk s e =>
      by_cases h1 : silenceDist target (s, e) < bd
      · by_cases h2 : silenceDist target (s, e) ≤ tol
        · simp_all [fnsAux, silenceMid, silenceDist]
        · simp_all [fnsAux, silenceMid, silenceDist]
      · simp_all [fnsAux, silenceMid, silenceDist]

lemma fnsAux_append (target tol : ℚ) (l l' : List (ℚ × ℚ))
    (best : Option (ℚ × ℚ)) :
    fnsAux target tol (l ++ l') best =
      fnsAux target tol l' (fnsAux target tol l best) := by
  induction l generalizing best with
  | nil => simp [fnsAux]
  | cons r rest ih =>
      cases r with
      | mk s e => simp only [List.cons_append, fnsAux]; exact ih _

/-- A best-so-far candidate survives a stretch of the list in which no range is
both within tolerance and strictly closer to the target. -/
lemma fnsAux_keep (target tol : ℚ) (l : List (ℚ × ℚ)) (bp bd : ℚ)
    (h : ∀ r ∈ l, ¬(silenceDist target r ≤ tol ∧ silenceDist target r < bd)) :
    fnsAux target tol l (some (bp, bd)) = some (bp, bd) := by
  induction l with
  | nil => rfl
  | cons r rest ih =>
      rw [fnsAux_cons_some]
      have hr := h r (List.mem_cons_self _ _)
      rw [if_neg fun hc => hr ⟨hc.2, hc.1⟩]
      exact ih fun r' hrm => h r' (List.mem_cons_of_mem _ hrm)

/-- Any state reached by `fnsAux` is either the incoming candidate or the
midpoint/distance pair of a scanned range whose distance is within
tolerance. -/
lemma fnsAux_mem (target tol : ℚ) (l : List (ℚ × ℚ)) :
    ∀ best : Option (ℚ × ℚ), fnsAux target tol l best = best ∨
      ∃ r ∈ l, fnsAux target tol l best =
          some (silenceMid r, silenceDist target r) ∧
        silenceDist target r ≤ tol := by
  induction l with
  | nil => intro best; exact Or.inl rfl
  | cons r rest ih =>
      intro best
      have step :
          fnsAux target tol (r :: rest) best =
            fnsAux target tol rest
              ((if silenceDist target r ≤ tol ∧
                    (∀ bd, best = some bd → silenceDist target r < bd.2)
                then some (silenceMid r, silenceDist target r) else best)) := by
        cases best with
        | none =>
            rw [fnsAux_cons_none]
            by_cases htol : silenceDist target r ≤ tol
            · rw [if_pos htol, if_pos ⟨htol, by intro bd hbd; cases hbd⟩]
            · rw [if_neg htol, if_neg fun hc => htol hc.1]
        | some bdp =>
            cases bdp with
            | mk bp bd =>
                rw [fnsAux_cons_some]
                by_cases hcond : silenceDist target r < bd ∧ silenceDist target r ≤ tol
                · rw [if_pos hcond,
                    if_pos ⟨hcond.2, by intro bd' hbd'; cases hbd'; exact hcond.1⟩]
                · rw [if_neg hcond, if_neg]
                  intro hc
                  exact hcond ⟨hc.2 (bp, bd) rfl, hc.1⟩
      rw [step]
      by_cases hcond : silenceDist target r ≤ tol ∧
          (∀ bd, best = some bd → silenceDist target r < bd.2)
      · rw [if_pos hcond]
        rcases ih (some (silenceMid r, silenceDist target r)) with h' | ⟨r', hr', h', ht'⟩
        · exact Or.inr ⟨r, List.mem_cons_self _ _, h', hcond.1⟩
        · exact Or.inr ⟨r', List.mem_cons_of_mem _ hr', h', ht'⟩
      · rw [if_neg hcond]
        rcases ih best with h' | ⟨r', hr', h', ht'⟩
        · exact Or.inl h'
        · exact Or.inr ⟨r', List.mem_cons_of_mem _ hr', h', ht'⟩

/-- A point returned by `find_nearest_silence` is the midpoint of one of the
given silence ranges, and its distance to the target is within the tolerance
actually passed. -/
lemma find_nearest_silence_mem (target tol p : ℚ) (ranges : List (ℚ × ℚ))
    (h : find_nearest_silence target ranges tol = some p) :
    ∃ r ∈ ranges, p = silenceMid r ∧ |p - target| ≤ tol := by
  unfold find_nearest_silence at h
  rcases fnsAux_mem target tol ranges none with h' | ⟨r, hr, h', ht'⟩
  · rw [h'] at h; cases h
  · rw [h'] at h
    have hp : p = silenceMid r := by
      simpa using h.symm
    exact ⟨r, hr, hp, by rw [hp]; simpa [silenceDist] using ht'⟩

lemma splitLoop_length (total ideal : ℚ) (silences : List (ℚ × ℚ)) (n : ℕ)
    (c : ℚ) : (splitLoop total ideal silences n c).length = n + 1 := by
  induction n generalizing c with
  | zero => rfl
  | succ n ih => simp only [splitLoop, List.length_cons, ih]

lemma splitLoop_head (total ideal : ℚ) (silences : List (ℚ × ℚ)) (n : ℕ)
    (c : ℚ) :
    (splitLoop total ideal silences n c).head?.map Prod.fst = some c := by
  cases n with
  | zero => rfl
  | succ n => rfl

lemma splitLoop_ne_nil (total ideal : ℚ) (silences : List (ℚ × ℚ)) (n : ℕ)
    (c : ℚ) : splitLoop total ideal silences n c ≠ [] := by
  intro h
  have := splitLoop_length total ideal silences n c
  rw [h] at this
  simp at this

lemma getLast?_cons_ne {α : Type} (x : α) (l : List α) (h : l ≠ []) :
    (x :: l).getLast? = l.getLast? := by
  cases l with
  | nil => exact absurd rfl h
  | cons a t => rw [List.getLast?_cons_cons]

lemma splitLoop_last (total ideal : ℚ) (silences : List (ℚ × ℚ)) (n : ℕ)
    (c : ℚ) :
    (splitLoop total ideal silences n c).getLast?.map Prod.snd = some total := by
  induction n generalizing c with
  | zero => rfl
  | succ n ih =>
      simp only [splitLoop]
      rw [getLast?_cons_ne _ _ (splitLoop_ne_nil _ _ _ _ _)]
      exact ih _

/-- Adjacent segments produced by `splitLoop` are contiguous: each segment's
start is the previous segment's end. -/
lemma splitLoop_chain (total ideal : ℚ) (silences : List (ℚ × ℚ)) (n : ℕ)
    (c : ℚ) :
    List.Chain' (fun a b : ℚ × ℚ => a.2 = b.1)
      (splitLoop total ideal silences n c) := by
  induction n generalizing c with
  | zero => simp [splitLoop]
  | succ n ih =>
      simp only [splitLoop]
      refine List.chain'_cons'.mpr ⟨?_, ih _⟩
      intro y hy
      have := splitLoop_head total ideal silences n
        (splitNext total ideal silences c)
      rw [hy] at this
      simpa using this.symm

/-- The next cut never moves left of the current start: a silence midpoint
within the tolerance `ideal * 0.4` of `currentStart + ideal` is at least
`currentStart + 0.6 * ideal`, and the clamp by `total` keeps the cut at or
after `currentStart` as long as `currentStart ≤ total`. -/
lemma le_splitNext (total ideal : ℚ) (silences : List (ℚ × ℚ)) (c : ℚ)
    (hi : 0 ≤ ideal) (hc : c ≤ total) :
    c ≤ splitNext total ideal silences c := by
  unfold splitNext
  have hAE : c ≤ match find_nearest_silence (c + ideal) silences (ideal * (2 / 5)) with
      | some p => p
      | none => c + ideal := by
    cases hfind : find_nearest_silence (c + ideal) silences (ideal * (2 / 5)) with
    | none => exact le_add_of_nonneg_right hi
    | some q =>
        obtain ⟨r, _, hq, hd⟩ := find_nearest_silence_mem _ _ _ _ hfind
        have habs := abs_le.mp hd
        simp only
        linarith [habs.1]
  by_cases hcl : (match find_nearest_silence (c + ideal) silences (ideal * (2 / 5)) with
      | some p => p
      | none => c + ideal) ≤ total
  · rw [if_pos hcl]; exact hAE
  · rw [if_neg hcl]; exact hc

lemma splitNext_le (total ideal : ℚ) (silences : List (ℚ × ℚ)) (c : ℚ) :
    splitNext total ideal silences c ≤ total := by
  unfold splitNext
  by_cases hcl : (match find_nearest_silence (c + ideal) silences (ideal * (2 / 5)) with
      | some p => p
      | none => c + ideal) ≤ total
  · rw [if_pos hcl]; exact hcl
  · rw [if_neg hcl]

/-- Every emitted segment has its start at or before its end. -/
lemma splitLoop_le (total ideal : ℚ) (silences : List (ℚ × ℚ)) (n : ℕ) :
    ∀ c : ℚ, 0 ≤ ideal → c ≤ total →
      ∀ p ∈ splitLoop total ideal silences n c, p.1 ≤ p.2 := by
  induction n with
  | zero =>
      intro c _ hc p hp
      simp only [splitLoop, List.mem_singleton] at hp
      rw [hp]
      exact hc
  | succ n ih =>
      intro c hi hc p hp
      simp only [splitLoop, List.mem_cons] at hp
      rcases hp with hp | hp
      · rw [hp]
        exact le_splitNext total ideal silences c hi hc
      · exact ih _ hi (splitNext_le total ideal silences c) p hp

/-- With no detected silences, `splitNext` is the ideal end
`currentStart + ideal`, provided that stays within the total duration. -/
lemma splitNext_nil (total ideal c : ℚ) (h : c + ideal ≤ total) :
    splitNext total ideal [] c = c + ideal := by
  unfold splitNext find_nearest_silence fnsAux
  simp only [Option.map_none']
  rw [if_pos h]

/-- With no detected silences the loop produces the perfectly even split:
boundary `k` sits at `c + k * ideal`. -/
lemma splitLoop_nil (total ideal : ℚ) (n : ℕ) :
    ∀ c : ℚ, 0 ≤ ideal → c + n * ideal ≤ total →
      splitLoop total ideal [] n c =
        ((List.range n).map fun k : ℕ =>
          (c + (k : ℚ) * ideal, c + ((k : ℚ) + 1) * ideal)) ++
          [(c + (n : ℚ) * ideal, total)] := by
  induction n with
  | zero => intro c _ _; simp [splitLoop]
  | succ n ih =>
      intro c hi hn
      have hstep : c + ideal ≤ total := by
        have : (0 : ℚ) ≤ (n : ℚ) * ideal :=
          mul_nonneg (Nat.cast_nonneg n) hi
        push_cast at hn
        linarith
      have hnext : splitNext total ideal [] c = c + ideal :=
        splitNext_nil total ideal c hstep
      simp only [splitLoop, hnext]
      rw [ih (c + ideal) hi (by push_cast at hn ⊢; linarith)]
      rw [List.range_succ_eq_map]
      simp only [List.map_cons, List.map_map, List.cons_append]
      congr 1
      · push_cast; ring_nf
      · congr 1
        · refine List.map_congr_left fun k _ => ?_
          simp only [Function.comp_apply]
          push_cast
          simp only [Prod.mk.injEq]
          exact ⟨by ring, by ring⟩
        · congr 1
          push_cast
          ring_nf

/-- C1: for every `N ≥ 2` and total duration `T ≥ 0`, `smart_split_audio`
returns exactly `N` segments that are contiguous and gapless (each segment's
start equals the previous segment's end), the first starting at `0`, the last
ending at `T`, and every segment's start at or before its end, so the ordered
segments cover `[0, T]` exactly with no gaps or overlaps. -/
theorem smart_split_audio_partition (N : ℕ) (T : ℚ) (silences : List (ℚ × ℚ))
    (hN : 2 ≤ N) (hT : 0 ≤ T) :
    (smart_split_audio T N silences).length = N ∧
    (smart_split_audio T N silences).head?.map Prod.fst = some 0 ∧
    (smart_split_audio T N silences).getLast?.map Prod.snd = some T ∧
    List.Chain' (fun a b : ℚ × ℚ => a.2 = b.1) (smart_split_audio T N silences) ∧
    ∀ p ∈ smart_split_audio T N silences, p.1 ≤ p.2 := by
  have hideal : 0 ≤ T / (N : ℚ) := div_nonneg hT (Nat.cast_nonneg N)
  refine ⟨?_, ?_, ?_, ?_, ?_⟩
  · rw [smart_split_audio, splitLoop_length]
    omega
  · exact splitLoop_head _ _ _ _ _
  · exact splitLoop_last _ _ _ _ _
  · exact splitLoop_chain _ _ _ _ _
  · exact splitLoop_le _ _ _ _ 0 hideal hT

/-- Witness for `smart_split_audio_partition` at `N = 4`, `T = 100000` with
the silences of the spec's worked example. -/
theorem smart_split_audio_partition_witness :
    ((2 : ℕ) ≤ 4 ∧ (0 : ℚ) ≤ 100000) ∧
    ((smart_split_audio 100000 4 [(24800, 25300), (74500, 75900)]).length = 4 ∧
     (smart_split_audio 100000 4 [(24800, 25300), (74500, 75900)]).head?.map
        Prod.fst = some 0 ∧
     (smart_split_audio 100000 4 [(24800, 25300), (74500, 75900)]).getLast?.map
        Prod.snd = some 100000 ∧
     List.Chain' (fun a b : ℚ × ℚ => a.2 = b.1)
        (smart_split_audio 100000 4 [(24800, 25300), (74500, 75900)]) ∧
     ∀ p ∈ smart_split_audio 100000 4 [(24800, 25300), (74500, 75900)],
        p.1 ≤ p.2) :=
  ⟨⟨by norm_num, by norm_num⟩,
    smart_split_audio_partition 4 100000 [(24800, 25300), (74500, 75900)]
      (by norm_num) (by norm_num)⟩

/-- C4 counterexample: with `T = 100000`, `N = 2`, the tolerance is
`idealSegmentLength * 0.4 = 20000`, and the silence range `(44000, 46000)`
whose midpoint `45000` lies `5000 ms > 2000 ms` away from the ideal cut
`50000` IS chosen — there is no hard maximum tolerance of 2000 ms. -/
theorem smart_split_audio_no_hard_cap :
    smart_split_audio 100000 2 [(44000, 46000)] =
      [(0, 45000), (45000, 100000)] ∧
    ¬(|(45000 : ℚ) - 50000| ≤ 2000) := by
  constructor
  · norm_num [smart_split_audio, splitLoop, splitNext, find_nearest_silence,
      fnsAux, abs]
  · norm_num [abs]

/-- C4 amended: the effective tolerance for accepting a silence midpoint is
exactly `idealSegmentLength * 0.4` (the `tolerance_ms = 2000` default of
`find_nearest_silence` is always overridden by `smart_split_audio`): any point
the selector returns under the tolerance `smart_split_audio` passes is the
midpoint of one of the silence ranges and lies within
`idealSegmentLength * 0.4` of the ideal cut point. -/
theorem find_nearest_silence_effective_tolerance (ideal target p : ℚ)
    (silences : List (ℚ × ℚ))
    (h : find_nearest_silence target silences (ideal * (2 / 5)) = some p) :
    ∃ r ∈ silences, p = (r.1 + r.2) / 2 ∧ |p - target| ≤ ideal * (2 / 5) := by
  obtain ⟨r, hr, hp, hd⟩ := find_nearest_silence_mem _ _ _ _ h
  exact ⟨r, hr, by rw [hp, silenceMid], hd⟩

/-- Witness for `find_nearest_silence_effective_tolerance` at the
counterexample input of `smart_split_audio_no_hard_cap`. -/
theorem find_nearest_silence_effective_tolerance_witness :
    find_nearest_silence 50000 [(44000, 46000)] (50000 * (2 / 5)) =
      some 45000 ∧
    ∃ r ∈ [((44000 : ℚ), (46000 : ℚ))], (45000 : ℚ) = (r.1 + r.2) / 2 ∧
      |(45000 : ℚ) - 50000| ≤ 50000 * (2 / 5) :=
  ⟨by norm_num [find_nearest_silence, fnsAux, abs],
   find_nearest_silence_effective_tolerance 50000 50000 45000
     [(44000, 46000)]
     (by norm_num [find_nearest_silence, fnsAux, abs])⟩

/-- C5 counterexample: on `T = 100000`, `N = 4`, silences
`[(24800, 25300), (74500, 75900)]`, the code returns
`[(0, 25050), (25050, 50050), (50050, 75200), (75200, 100000)]`, not the
expected list of the spec (whose second segment ends at `50000`): each ideal
end is computed from the previous ACTUAL cut (`25050 + 25000 = 50050`), not
from the fixed grid `k * T / N`. -/
theorem smart_split_audio_example_mismatch :
    smart_split_audio 100000 4 [(24800, 25300), (74500, 75900)] =
      [(0, 25050), (25050, 50050), (50050, 75200), (75200, 100000)] ∧
    smart_split_audio 100000 4 [(24800, 25300), (74500, 75900)] ≠
      [(0, 25050), (25050, 50000), (50000, 75200), (75200, 100000)] := by
  constructor
  · norm_num [smart_split_audio, splitLoop, splitNext, find_nearest_silence,
      fnsAux, abs]
  · norm_num [smart_split_audio, splitLoop, splitNext, find_nearest_silence,
      fnsAux, abs]

/-- C5 amended: the actual output on the spec's worked example.  The first cut
lands on the silence midpoint `25050`; the second ideal end is
`25050 + 25000 = 50050` and no silence is within its tolerance, so the cut
falls at `50050`; the third ideal end is `75050`, within tolerance of midpoint
`75200`. -/
theorem smart_split_audio_example :
    smart_split_audio 100000 4 [(24800, 25300), (74500, 75900)] =
      [(0, 25050), (25050, 50050), (50050, 75200), (75200, 100000)] := by
  norm_num [smart_split_audio, splitLoop, splitNext, find_nearest_silence,
    fnsAux, abs]

/-- C6 counterexample: with no silences, `T = 100`, `N = 3`, the first internal
boundary is the exact rational `100/3` (the float `T/N` in the source), which
differs from `round(1 * 100 / 3) = 33` — boundaries are not rounded to
integers. -/
theorem even_split_boundary_not_rounded :
    (smart_split_audio 100 3 []).map Prod.snd = [100 / 3, 200 / 3, 100] ∧
    round ((1 : ℚ) * 100 / 3) = 33 ∧
    (100 / 3 : ℚ) ≠ ((33 : ℤ) : ℚ) := by
  refine ⟨?_, ?_, ?_⟩
  · norm_num [smart_split_audio, splitLoop, splitNext, find_nearest_silence,
      fnsAux, abs]
  · rw [round_eq]
    norm_num
  · norm_num

/-- C6 amended: with no silences detected, the `k`-th internal boundary equals
`k * T / N` exactly (an unrounded rational; a float in the source), for
`k = 1 .. N-1`, i.e. the split degenerates to the exact even partition. -/
theorem smart_split_audio_even_split (N : ℕ) (T : ℚ) (hN : 2 ≤ N)
    (hT : 0 ≤ T) :
    smart_split_audio T N [] =
      ((List.range (N - 1)).map fun k : ℕ =>
        ((k : ℚ) * (T / N), ((k : ℚ) + 1) * (T / N))) ++
        [(((N : ℚ) - 1) * (T / N), T)] := by
  have h1 : (1 : ℕ) ≤ N := le_trans (by norm_num) hN
  have hNpos : (0 : ℚ) < (N : ℚ) := by
    have : (0 : ℕ) < N := lt_of_lt_of_le (by norm_num) hN
    exact_mod_cast this
  have hideal : 0 ≤ T / (N : ℚ) := div_nonneg hT hNpos.le
  have hTN : (N : ℚ) * (T / N) = T := by
    rw [mul_comm]
    exact div_mul_cancel₀ T hNpos.ne'
  have hbound : (0 : ℚ) + ((N - 1 : ℕ) : ℚ) * (T / N) ≤ T := by
    rw [zero_add, Nat.cast_sub h1, Nat.cast_one]
    have : ((N : ℚ) - 1) * (T / N) = (N : ℚ) * (T / N) - T / N := by ring
    rw [this, hTN]
    linarith
  rw [smart_split_audio, splitLoop_nil T (T / N) (N - 1) 0 hideal hbound]
  congr 1
  · exact List.map_congr_left fun k _ => by rw [zero_add, zero_add]
  · rw [zero_add, Nat.cast_sub h1, Nat.cast_one]

/-- Witness for `smart_split_audio_even_split` at `N = 3`, `T = 100`. -/
theorem smart_split_audio_even_split_witness :
    smart_split_audio 100 3 [] =
      ((List.range 2).map fun k : ℕ =>
        ((k : ℚ) * (100 / 3), ((k : ℚ) + 1) * (100 / 3))) ++
        [(((3 : ℚ) - 1) * (100 / 3), 100)] :=
  smart_split_audio_even_split 3 100 (by norm_num) (by norm_num)

/-- C7: when the silence list contains two ranges whose midpoints are exactly
equidistant from the target cut point, both within tolerance, and no other
range does better (no earlier range is at least as close within tolerance, no
other range is strictly closer within tolerance), `find_nearest_silence`
selects the one that occurs earlier — the strict `distance < best_distance`
comparison keeps the first minimal candidate encountered.  The hypothesis
`hab` records that the earlier-listed range `a` is also the earlier one in
time (smaller start), which is how `detect_silence` orders its output; being a
pure function of its input, the selection is deterministic across repeated
runs. -/
theorem find_nearest_silence_tiebreak (target tol : ℚ)
    (l₁ l₂ l₃ : List (ℚ × ℚ)) (a b : ℚ × ℚ)
    (hab : a.1 < b.1)
    (hd : silenceDist target a = silenceDist target b)
    (htol : silenceDist target a ≤ tol)
    (h₁ : ∀ r ∈ l₁, ¬(silenceDist target r ≤ tol ∧
        silenceDist target r ≤ silenceDist target a))
    (h₂ : ∀ r ∈ l₂ ++ l₃, ¬(silenceDist target r ≤ tol ∧
        silenceDist target r < silenceDist target a)) :
    find_nearest_silence target (l₁ ++ a :: (l₂ ++ b :: l₃)) tol =
      some (silenceMid a) := by
  unfold find_nearest_silence
  rw [fnsAux_append]
  have hstep :
      fnsAux target tol (a :: (l₂ ++ b :: l₃)) (fnsAux target tol l₁ none) =
        fnsAux target tol (l₂ ++ b :: l₃)
          (some (silenceMid a, silenceDist target a)) := by
    rcases fnsAux_mem target tol l₁ none with hnone | ⟨r, hr, hsome, hrt⟩
    · rw [hnone, fnsAux_cons_none, if_pos htol]
    · rw [hsome, fnsAux_cons_some, if_pos]
      constructor
      · rcases h₁ r hr with h
        by_contra hcon
        push_neg at hcon
        exact h ⟨hrt, hcon⟩
      · exact htol
  rw [hstep]
  have hkeep :
      fnsAux target tol (l₂ ++ b :: l₃)
          (some (silenceMid a, silenceDist target a)) =
        some (silenceMid a, silenceDist target a) := by
    apply fnsAux_keep
    intro r hrm
    rcases List.mem_append.mp hrm with hr2 | hr3
    · exact h₂ r (List.mem_append.mpr (Or.inl hr2))
    · rcases List.mem_cons.mp hr3 with hrb | hr3'
      · subst hrb
        rw [← hd]
        exact fun hcon => absurd hcon.2 (lt_irrefl _)
      · exact h₂ r (List.mem_append.mpr (Or.inr hr3'))
  rw [hkeep]
  rfl

/-- Witness for `find_nearest_silence_tiebreak`: ranges `(6,10)` and `(12,12)`
both have midpoints at distance `2` from target `10`; the earlier one wins. -/
theorem find_nearest_silence_tiebreak_witness :
    find_nearest_silence 10 [(100, 102), (6, 10), (12, 12)] 5 = some 8 := by
  have h := find_nearest_silence_tiebreak 10 5 [(100, 102)] [] []
    (6, 10) (12, 12)
    (by norm_num)
    (by norm_num [silenceDist, silenceMid, abs])
    (by norm_num [silenceDist, silenceMid, abs])
    (by
      intro r hr
      rw [List.mem_singleton] at hr
      subst hr
      norm_num [silenceDist, silenceMid, abs])
    (by simp)
  rw [show silenceMid ((6 : ℚ), (10 : ℚ)) = 8 by norm_num [silenceMid]] at h
  exact h

/-! ## Concatenation job worker

`process_concat_job` (`app/main.py` 743-953) runs on a background thread and
mutates the `jobs_store` entry of its job.  The worker is embedded as a pure
function from the outcomes of its external effects — each video download
(`download_and_validate_video`, raising `ValueError` on failure), the optional
audio download, and the encoding step — to the sequence of snapshots the
job-store entry passes through.  The endpoint `concat_videos`
(`app/main.py` 955-1018) creates the entry with status `"queued"`, which is
the first snapshot.
-/

/-- The five values the `status` field of a job-store entry takes. -/
inductive JobStatus
  | queued
  | downloading
  | processing
  | completed
  | failed
deriving DecidableEq

/-- Outcome of one `download_and_validate_video` / `download_audio_file` call:
a validated local file, or the message of the `ValueError` it raised. -/
inductive FetchOutcome
  | ok
  | err (msg : String)
deriving DecidableEq

/-- Outcome of one `subprocess.run(cmd, ..., timeout=...)` call: the process
completed with a return code and captured stderr, or `subprocess.TimeoutExpired`
was raised. -/
inductive RunOutcome
  | completed (returncode : ℤ) (stderr : String)
  | timedOut
deriving DecidableEq

/-- Outcome of the moviepy overlay re-encode block (clip loading, compositing
and `write_videofile`): success, or a raised exception rendered by `str(e)`. -/
inductive EncodeOutcome
  | ok
  | exc (msg : String)
deriving DecidableEq

/-- The outcomes of the external encoding effects available to one run of the
processing phase. -/
structure ExtEnv where
  writeOutcome : EncodeOutcome
  streamCopyOutcome : RunOutcome
  reencodeOutcome : RunOutcome
deriving DecidableEq

/-- The external-tool invocations the processing phase can attempt, in the
order it attempts them. -/
inductive Invocation
  | overlayEncode
  | streamCopy
  | fallbackReencode
deriving DecidableEq

/-- `has_overlays` (`app/main.py` 791): Python's
`(overlays and len(overlays) > 0) or (image_overlays and len(image_overlays) > 0)`,
where each argument is `None` or a list. -/
def has_overlays (overlays imageOverlays : Option (List String)) : Bool :=
  (match overlays with
   | none => false
   | some l => decide (0 < l.length)) ||
  (match imageOverlays with
   | none => false
   | some l => decide (0 < l.length))

/-- The error recorded when a `subprocess.TimeoutExpired` is caught
(`app/main.py` 937-939). -/
def timeout_error_message : String := "Processing timed out (max 10 minutes)"

/-- The exception message raised when the fallback re-encode also exits
non-zero (`app/main.py` 927-928): `f"FFmpeg failed: {result.stderr[:500]}"`. -/
def ffmpeg_failure_message (stderr : String) : String :=
  "FFmpeg failed: " ++ stderr.take 500

/-- How the processing phase (`app/main.py` 790-942) ends: normally, with a
caught `subprocess.TimeoutExpired`, or with a caught generic exception. -/
inductive ProcResult
  | success
  | timeoutErr
  | excErr (msg : String)
deriving DecidableEq

/-- The processing phase of `process_concat_job` (`app/main.py` 790-928):
with overlays the moviepy re-encode runs directly; without overlays the ffmpeg
stream-copy command runs first and, only when it completes with a non-zero
return code, the ffmpeg re-encode command runs once; a non-zero return code of
that fallback raises `FFmpeg failed: ...`.  A `TimeoutExpired` from either
subprocess propagates to the `except subprocess.TimeoutExpired` handler.
Returns the phase outcome and the list of invocations attempted, in order. -/
def processPhase (hasOverlays : Bool) (env : ExtEnv) :
    ProcResult × List Invocation :=
  if hasOverlays then
    match env.writeOutcome with
    | .ok => (.success, [.overlayEncode])
    | .exc m => (.excErr m, [.overlayEncode])
  else
    match env.streamCopyOutcome with
    | .timedOut => (.timeoutErr, [.streamCopy])
    | .completed rc _ =>
        if rc ≠ 0 then
          match env.reencodeOutcome with
          | .timedOut => (.timeoutErr, [.streamCopy, .fallbackReencode])
          | .completed rc2 stderr2 =>
              if rc2 ≠ 0 then
                (.excErr (ffmpeg_failure_message stderr2),
                  [.streamCopy, .fallbackReencode])
              else (.success, [.streamCopy, .fallbackReencode])
        else (.success, [.streamCopy])

/-- One snapshot of the fields of a job-store entry that the claims concern:
`status`, `error`, and the result (`video_filename`). -/
structure Snapshot where
  status : JobStatus
  error : Option String
  result : Option String
deriving DecidableEq

/-- Index and message of the first failing video download, mirroring the loop
at `app/main.py` 755-765 which fails the job on the first `ValueError`. -/
def firstFetchError : List FetchOutcome → Option (ℕ × String)
  | [] => none
  | .ok :: rest => (firstFetchError rest).map fun im => (im.1 + 1, im.2)
  | .err m :: _ => some (0, m)

/-- The snapshots written from the `processing` transition on
(`app/main.py` 783-942): `processing`, then `completed` with the output file
name, or `failed` with the timeout or exception message. -/
def processingTail (jobId : String)
    (overlays imageOverlays : Option (List String)) (env : ExtEnv) :
    List Snapshot :=
  ⟨.processing, none, none⟩ ::
    match (processPhase (has_overlays overlays imageOverlays) env).1 with
    | .success => [⟨.completed, none, some ("concat_" ++ jobId ++ ".mp4")⟩]
    | .timeoutErr => [⟨.failed, some timeout_error_message, none⟩]
    | .excErr m => [⟨.failed, some m, none⟩]

/-- The sequence of job-store snapshots of one job: creation in `queued`
(`app/main.py` 990-1004), then the worker `process_concat_job`
(`app/main.py` 743-953): `downloading`, per-video failure, the
empty-downloads guard, optional audio failure, then the processing phase. -/
def jobSnapshots (jobId : String) (videoFetch : List FetchOutcome)
    (hasAudio : Bool) (audioFetch : FetchOutcome)
    (overlays imageOverlays : Option (List String)) (env : ExtEnv) :
    List Snapshot :=
  ⟨.queued, none, none⟩ :: ⟨.downloading, none, none⟩ ::
    (match firstFetchError videoFetch with
     | some (idx, m) =>
         [⟨.failed, some ("Video " ++ toString idx ++ ": " ++ m), none⟩]
     | none =>
         if videoFetch.isEmpty then
           [⟨.failed, some "No videos were successfully downloaded", none⟩]
         else if hasAudio then
           match audioFetch with
           | .err m => [⟨.failed, some ("Audio download failed: " ++ m), none⟩]
           | .ok => processingTail jobId overlays imageOverlays env
         else processingTail jobId overlays imageOverlays env)

/-- The status transitions the spec's state machine allows. -/
def allowedTransition (a b : JobStatus) : Prop :=
  (a = .queued ∧ b = .downloading) ∨
  (a = .downloading ∧ (b = .processing ∨ b = .failed)) ∨
  (a = .processing ∧ (b = .completed ∨ b = .failed))

/-- `completed` and `failed` are the terminal statuses. -/
def isTerminal (s : JobStatus) : Prop := s = .completed ∨ s = .failed

lemma processingTail_shape (jobId : String)
    (overlays imageOverlays : Option (List String)) (env : ExtEnv) :
    ∃ last : Snapshot,
      processingTail jobId overlays imageOverlays env =
        [⟨.processing, none, none⟩, last] ∧
      (last.status = .completed ∨ last.status = .failed) := by
  unfold processingTail
  cases (processPhase (has_overlays overlays imageOverlays) env).1 with
  | success => exact ⟨_, rfl, Or.inl rfl⟩
  | timeoutErr => exact ⟨_, rfl, Or.inr rfl⟩
  | excErr m => exact ⟨_, rfl, Or.inr rfl⟩

lemma jobSnapshots_shape (jobId : String) (videoFetch : List FetchOutcome)
    (hasAudio : Bool) (audioFetch : FetchOutcome)
    (overlays imageOverlays : Option (List String)) (env : ExtEnv) :
    (∃ m : String,
      jobSnapshots jobId videoFetch hasAudio audioFetch overlays imageOverlays
          env =
        [⟨.queued, none, none⟩, ⟨.downloading, none, none⟩,
         ⟨.failed, some m, none⟩]) ∨
    (∃ last : Snapshot,
      jobSnapshots jobId videoFetch hasAudio audioFetch overlays imageOverlays
          env =
        [⟨.queued, none, none⟩, ⟨.downloading, none, none⟩,
         ⟨.processing, none, none⟩, last] ∧
      (last.status = .completed ∨ last.status = .failed)) := by
  unfold jobSnapshots
  cases hf : firstFetchError videoFetch with
  | some im => exact Or.inl ⟨_, rfl⟩
  | none =>
      by_cases hemp : videoFetch.isEmpty
      · rw [if_pos hemp]
        exact Or.inl ⟨_, rfl⟩
      · rw [if_neg hemp]
        cases hasAudio with
        | false =>
            simp only [Bool.false_eq_true, if_neg]
            obtain ⟨last, htail, hterm⟩ :=
              processingTail_shape jobId overlays imageOverlays env
            rw [htail]
            exact Or.inr ⟨last, rfl, hterm⟩
        | true =>
            simp only [if_pos]
            cases audioFetch with
            | err m => exact Or.inl ⟨_, rfl⟩
            | ok =>
                obtain ⟨last, htail, hterm⟩ :=
                  processingTail_shape jobId overlays imageOverlays env
                rw [htail]
                exact Or.inr ⟨last, rfl, hterm⟩

/-- C3: for every execution of the worker, the job's status starts at
`queued` and every adjacent pair of status values follows the forward state
machine `queued → downloading → processing → {completed | failed}` (with
`downloading → failed` for download errors) — never backward and never from
`queued` directly to `completed`; every snapshot before the last one is
non-terminal (so once `completed` or `failed` is recorded, no later step
changes the status, the error, or the result), and the run ends in a terminal
status. -/
theorem job_status_lifecycle (jobId : String) (videoFetch : List FetchOutcome)
    (hasAudio : Bool) (audioFetch : FetchOutcome)
    (overlays imageOverlays : Option (List String)) (env : ExtEnv) :
    (jobSnapshots jobId videoFetch hasAudio audioFetch overlays imageOverlays
        env).head?.map Snapshot.status = some JobStatus.queued ∧
    List.Chain' allowedTransition
      ((jobSnapshots jobId videoFetch hasAudio audioFetch overlays
          imageOverlays env).map Snapshot.status) ∧
    (∀ s ∈ (jobSnapshots jobId videoFetch hasAudio audioFetch overlays
        imageOverlays env).dropLast, ¬ isTerminal s.status) ∧
    (∃ s, (jobSnapshots jobId videoFetch hasAudio audioFetch overlays
        imageOverlays env).getLast? = some s ∧ isTerminal s.status) := by
  rcases jobSnapshots_shape jobId videoFetch hasAudio audioFetch overlays
      imageOverlays env with ⟨m, hm⟩ | ⟨last, hl, hterm⟩
  · rw [hm]
    refine ⟨rfl, ?_, ?_, ?_⟩
    · simp [allowedTransition, List.chain'_cons]
    · intro s hs
      simp only [List.dropLast, List.mem_cons, List.not_mem_nil, or_false]
        at hs
      rcases hs with h | h <;> subst h <;>
        simp [isTerminal]
    · exact ⟨_, rfl, Or.inr rfl⟩
  · rw [hl]
    refine ⟨rfl, ?_, ?_, ?_⟩
    · simp only [List.map_cons, List.map_nil]
      refine List.chain'_cons.mpr ⟨Or.inl ⟨rfl, rfl⟩, ?_⟩
      refine List.chain'_cons.mpr ⟨Or.inr (Or.inl ⟨rfl, Or.inl rfl⟩), ?_⟩
      refine List.chain'_cons.mpr ⟨?_, List.chain'_singleton _⟩
      exact Or.inr (Or.inr ⟨rfl, hterm⟩)
    · intro s hs
      simp only [List.dropLast, List.mem_cons, List.not_mem_nil, or_false]
        at hs
      rcases hs with h | h | h <;> subst h <;> simp [isTerminal]
    · exact ⟨last, rfl, hterm⟩

/-- C2 counterexample: with no overlays and a stream-copy attempt that fails
by TIMEOUT, the worker does NOT retry with the re-encode strategy: the
`subprocess.TimeoutExpired` raised at `app/main.py` 894 propagates past the
fallback block straight to the handler at line 937, so the only invocation is
the stream-copy and the job fails — contradicting "on failure of that attempt
retries exactly once with the full re-encode strategy". -/
theorem stream_copy_timeout_no_retry :
    (processPhase false
        ⟨EncodeOutcome.ok, RunOutcome.timedOut,
         RunOutcome.completed 0 ""⟩).2 = [Invocation.streamCopy] ∧
    Invocation.fallbackReencode ∉
      (processPhase false
        ⟨EncodeOutcome.ok, RunOutcome.timedOut,
         RunOutcome.completed 0 ""⟩).2 ∧
    (processPhase false
        ⟨EncodeOutcome.ok, RunOutcome.timedOut,
         RunOutcome.completed 0 ""⟩).1 = ProcResult.timeoutErr := by
  refine ⟨rfl, ?_, rfl⟩
  simp [processPhase]

/-- C2 amended: a request with at least one text or image overlay is processed
exclusively by the re-encode path (stream-copy is never attempted); a request
with no overlays attempts stream-copy first, and when that attempt completes
with a NON-ZERO EXIT CODE retries exactly once with the full re-encode
command; a failure of that single fallback is final — the job is recorded as
`failed` with the `FFmpeg failed` error and nothing further is attempted.  (A
stream-copy TIMEOUT, by contrast, is terminal with no retry, per the
counterexample.) -/
theorem encode_strategy_selection (overlays imageOverlays : Option (List String))
    (env : ExtEnv) :
    (has_overlays overlays imageOverlays = true →
      (processPhase (has_overlays overlays imageOverlays) env).2 =
        [Invocation.overlayEncode]) ∧
    (has_overlays overlays imageOverlays = false →
      ((processPhase (has_overlays overlays imageOverlays) env).2.head? =
          some Invocation.streamCopy ∧
       (processPhase (has_overlays overlays imageOverlays) env).2.count
          Invocation.fallbackReencode ≤ 1 ∧
       (∀ rc s, env.streamCopyOutcome = RunOutcome.completed rc s → rc ≠ 0 →
         (processPhase (has_overlays overlays imageOverlays) env).2 =
           [Invocation.streamCopy, Invocation.fallbackReencode]) ∧
       (∀ rc s rc2 s2, env.streamCopyOutcome = RunOutcome.completed rc s →
         rc ≠ 0 → env.reencodeOutcome = RunOutcome.completed rc2 s2 →
         rc2 ≠ 0 →
         (processPhase (has_overlays overlays imageOverlays) env).1 =
           ProcResult.excErr (ffmpeg_failure_message s2) ∧
         ∀ jobId, (processingTail jobId overlays imageOverlays env).getLast? =
           some ⟨JobStatus.failed, some (ffmpeg_failure_message s2), none⟩))) := by
  constructor
  · intro hov
    rw [hov]
    cases hw : env.writeOutcome with
    | ok => simp [processPhase, hw]
    | exc m => simp [processPhase, hw]
  · intro hov
    rw [hov]
    refine ⟨?_, ?_, ?_, ?_⟩
    · cases hsc : env.streamCopyOutcome with
      | timedOut => simp [processPhase, hsc]
      | completed rc s =>
          by_cases hrc : rc ≠ 0
          · cases hre : env.reencodeOutcome with
            | timedOut => simp [processPhase, hsc, hrc, hre]
            | completed rc2 s2 =>
                by_cases hrc2 : rc2 ≠ 0
                · simp [processPhase, hsc, hrc, hre, hrc2]
                · simp [processPhase, hsc, hrc, hre, hrc2]
          · simp [processPhase, hsc, hrc]
    · cases hsc : env.streamCopyOutcome with
      | timedOut => simp [processPhase, hsc]
      | completed rc s =>
          by_cases hrc : rc ≠ 0
          · cases hre : env.reencodeOutcome with
            | timedOut => simp [processPhase, hsc, hrc, hre]
            | completed rc2 s2 =>
                by_cases hrc2 : rc2 ≠ 0
                · simp [processPhase, hsc, hrc, hre, hrc2]
                · simp [processPhase, hsc, hrc, hre, hrc2]
          · simp [processPhase, hsc, hrc]
    · intro rc s hsc hrc
      cases hre : env.reencodeOutcome with
      | timedOut => simp [processPhase, hsc, hrc, hre]
      | completed rc2 s2 =>
          by_cases hrc2 : rc2 ≠ 0
          · simp [processPhase, hsc, hrc, hre, hrc2]
          · simp [processPhase, hsc, hrc, hre, hrc2]
    · intro rc s rc2 s2 hsc hrc hre hrc2
      constructor
      · simp [processPhase, hsc, hrc, hre, hrc2]
      · intro jobId
        unfold processingTail
        rw [hov]
        have : (processPhase false env).1 =
            ProcResult.excErr (ffmpeg_failure_message s2) := by
          simp [processPhase, hsc, hrc, hre, hrc2]
        rw [this]
        rfl

/-- Witness for `encode_strategy_selection`: a no-overlay request whose
stream-copy exits `1` and whose fallback re-encode exits `1` as well ends with
both invocations attempted, the `FFmpeg failed` outcome, and a `failed`
terminal snapshot. -/
theorem encode_strategy_selection_witness :
    (processPhase
        (has_overlays none none)
        ⟨EncodeOutcome.ok, RunOutcome.completed 1 "boom",
         RunOutcome.completed 1 "crash"⟩).2 =
      [Invocation.streamCopy, Invocation.fallbackReencode] ∧
    (processPhase
        (has_overlays none none)
        ⟨EncodeOutcome.ok, RunOutcome.completed 1 "boom",
         RunOutcome.completed 1 "crash"⟩).1 =
      ProcResult.excErr (ffmpeg_failure_message "crash") ∧
    (processingTail "j1" none none
        ⟨EncodeOutcome.ok, RunOutcome.completed 1 "boom",
         RunOutcome.completed 1 "crash"⟩).getLast? =
      some ⟨JobStatus.failed, some (ffmpeg_failure_message "crash"), none⟩ ∧
    (processPhase
        (has_overlays (some ["title card"]) none)
        ⟨EncodeOutcome.ok, RunOutcome.completed 1 "boom",
         RunOutcome.completed 1 "crash"⟩).2 =
      [Invocation.overlayEncode] := by
  have h := encode_strategy_selection none none
    ⟨EncodeOutcome.ok, RunOutcome.completed 1 "boom",
     RunOutcome.completed 1 "crash"⟩
  have h2 := h.2 rfl
  have h3 := h2.2.2.1 1 "boom" rfl (by norm_num)
  have h4 := h2.2.2.2 1 "boom" 1 "crash" rfl (by norm_num) rfl (by norm_num)
  have hov := (encode_strategy_selection (some ["title card"]) none
    ⟨EncodeOutcome.ok, RunOutcome.completed 1 "boom",
     RunOutcome.completed 1 "crash"⟩).1 rfl
  exact ⟨h3, h4.1, h4.2 "j1", hov⟩

/-! ## External-tool invocations

The concrete commands `process_concat_job` builds, with the bound each
`subprocess.run` call passes. -/

/-- An ffmpeg subprocess invocation: its argument vector and the `timeout=`
value (in seconds) passed to `subprocess.run`. -/
structure ToolInvocation where
  argv : List String
  timeoutSeconds : Option ℕ
deriving DecidableEq

/-- The stream-copy concatenation command (`app/main.py` 867-894): with a
replacement audio track it maps the concatenated video and the audio,
copying video (`-c:v copy`); without one it copies both streams.  Run with
`timeout=300`. -/
def stream_copy_invocation (withAudio : Bool)
    (concatList audioPath outputPath : String) : ToolInvocation :=
  if withAudio then
    { argv := ["ffmpeg", "-y", "-f", "concat", "-safe", "0",
        "-i", concatList, "-i", audioPath, "-map", "0:v", "-map", "1:a",
        "-c:v", "copy", "-c:a", "aac", "-shortest",
        "-movflags", "+faststart", outputPath],
      timeoutSeconds := some 300 }
  else
    { argv := ["ffmpeg", "-y", "-f", "concat", "-safe", "0",
        "-i", concatList, "-c:v", "copy", "-c:a", "copy",
        "-movflags", "+faststart", outputPath],
      timeoutSeconds := some 300 }

/-- The fallback full re-encode command (`app/main.py` 896-925), attempted
once after a non-zero exit of the stream-copy command.  Run with
`timeout=600`. -/
def fallback_reencode_invocation (withAudio : Bool)
    (concatList audioPath outputPath : String) : ToolInvocation :=
  if withAudio then
    { argv := ["ffmpeg", "-y", "-f", "concat", "-safe", "0",
        "-i", concatList, "-i", audioPath, "-map", "0:v", "-map", "1:a",
        "-c:v", "libx264", "-c:a", "aac", "-preset", "fast", "-shortest",
        "-movflags", "+faststart", outputPath],
      timeoutSeconds := some 600 }
  else
    { argv := ["ffmpeg", "-y", "-f", "concat", "-safe", "0",
        "-i", concatList, "-c:v", "libx264", "-c:a", "aac",
        "-preset", "fast", "-movflags", "+faststart", outputPath],
      timeoutSeconds := some 600 }

/-- The keyword arguments of the moviepy `write_videofile` call of the overlay
re-encode path (`app/main.py` 839-848), and the bound on the call.  The call
passes `ffmpeg_params=['-crf', '18']` and no other ffmpeg flags; it has no
timeout parameter and is not otherwise bounded, modelled as
`timeoutSeconds = none`. -/
structure EncodeInvocation where
  codec : String
  audio_codec : String
  fps : ℕ
  preset : String
  bitrate : String
  ffmpeg_params : List String
  timeoutSeconds : Option ℕ
deriving DecidableEq

/-- The overlay re-encode invocation (`app/main.py` 839-848). -/
def overlay_write_invocation : EncodeInvocation :=
  { codec := "libx264", audio_codec := "aac", fps := 24, preset := "medium",
    bitrate := "8000k", ffmpeg_params := ["-crf", "18"],
    timeoutSeconds := none }

/-- The timeout error message differs from every `FFmpeg failed` message: the
two error kinds are distinguishable. -/
lemma timeout_msg_ne_ffmpeg_msg (stderr : String) :
    timeout_error_message ≠ ffmpeg_failure_message stderr := by
  intro h
  have h2 := congrArg String.data h
  unfold timeout_error_message ffmpeg_failure_message at h2
  rw [String.data_append] at h2
  simp at h2

/-- C8 counterexample: the overlay re-encode invocation is NOT bounded by the
600-second timeout (or any timeout): `write_videofile` is called with no
bound, so "every re-encode attempt ... is bounded by the longer timeout" fails
on the overlay path. -/
theorem overlay_reencode_unbounded :
    overlay_write_invocation.timeoutSeconds = none ∧
    overlay_write_invocation.timeoutSeconds ≠ some 600 := by
  refine ⟨rfl, ?_⟩
  intro h
  cases h

/-- C8 amended: the stream-copy subprocess is bounded by 300 seconds and the
fallback re-encode subprocess by 600 seconds; a `TimeoutExpired` from either
marks the job `failed` with the timed-out error message, which differs from
the error produced by a non-zero exit of the tool; the overlay re-encode path,
however, runs unbounded. -/
theorem timeout_policy (withAudio : Bool)
    (concatList audioPath outputPath : String) :
    (stream_copy_invocation withAudio concatList audioPath
        outputPath).timeoutSeconds = some 300 ∧
    (fallback_reencode_invocation withAudio concatList audioPath
        outputPath).timeoutSeconds = some 600 ∧
    overlay_write_invocation.timeoutSeconds = none ∧
    (∀ stderr, timeout_error_message ≠ ffmpeg_failure_message stderr) ∧
    (∀ jobId (overlays imageOverlays : Option (List String)) (env : ExtEnv),
      (processPhase (has_overlays overlays imageOverlays) env).1 =
          ProcResult.timeoutErr →
      (processingTail jobId overlays imageOverlays env).getLast? =
        some ⟨JobStatus.failed, some timeout_error_message, none⟩) := by
  refine ⟨?_, ?_, rfl, timeout_msg_ne_ffmpeg_msg, ?_⟩
  · cases withAudio <;> rfl
  · cases withAudio <;> rfl
  · intro jobId overlays imageOverlays env h
    unfold processingTail
    rw [h]
    rfl

/-- Witness for `timeout_policy` at concrete paths, with a timed-out
stream-copy run. -/
theorem timeout_policy_witness :
    (stream_copy_invocation true "list.txt" "audio.mp3"
        "out.mp4").timeoutSeconds = some 300 ∧
    (fallback_reencode_invocation true "list.txt" "audio.mp3"
        "out.mp4").timeoutSeconds = some 600 ∧
    overlay_write_invocation.timeoutSeconds = none ∧
    timeout_error_message ≠ ffmpeg_failure_message "boom" ∧
    (processingTail "j2" none none
        ⟨EncodeOutcome.ok, RunOutcome.timedOut,
         RunOutcome.completed 0 ""⟩).getLast? =
      some ⟨JobStatus.failed, some timeout_error_message, none⟩ := by
  have h := timeout_policy true "list.txt" "audio.mp3" "out.mp4"
  exact ⟨h.1, h.2.1, h.2.2.1, h.2.2.2.1 "boom",
    h.2.2.2.2 "j2" none none
      ⟨EncodeOutcome.ok, RunOutcome.timedOut, RunOutcome.completed 0 ""⟩ rfl⟩

/-- C9 counterexample: the overlay re-encode path does not pass the fast-start
option — neither `-movflags` nor `+faststart` occurs among the ffmpeg
parameters of the `write_videofile` call — so "every full re-encode execution
path produces its output with fast-start container placement" fails on the
overlay path. -/
theorem overlay_reencode_no_faststart :
    "+faststart" ∉ overlay_write_invocation.ffmpeg_params ∧
    "-movflags" ∉ overlay_write_invocation.ffmpeg_params := by
  constructor <;> · intro h; simp [overlay_write_invocation] at h

/-- C9 amended: the fallback re-encode command (both audio variants) and also
both stream-copy command variants include `-movflags +faststart`; the overlay
re-encode (`write_videofile`) invocation does not pass the option. -/
theorem faststart_placement (withAudio : Bool)
    (concatList audioPath outputPath : String) :
    "+faststart" ∈
      (fallback_reencode_invocation withAudio concatList audioPath
        outputPath).argv ∧
    "-movflags" ∈
      (fallback_reencode_invocation withAudio concatList audioPath
        outputPath).argv ∧
    "+faststart" ∈
      (stream_copy_invocation withAudio concatList audioPath
        outputPath).argv ∧
    "+faststart" ∉ overlay_write_invocation.ffmpeg_params := by
  cases withAudio <;>
    refine ⟨?_, ?_, ?_, ?_⟩ <;>
      simp [fallback_reencode_invocation, stream_copy_invocation,
        overlay_write_invocation]

/-- Witness for `faststart_placement` at concrete paths. -/
theorem faststart_placement_witness :
    "+faststart" ∈
      (fallback_reencode_invocation false "list.txt" "audio.mp3"
        "out.mp4").argv ∧
    "-movflags" ∈
      (fallback_reencode_invocation false "list.txt" "audio.mp3"
        "out.mp4").argv ∧
    "+faststart" ∈
      (stream_copy_invocation false "list.txt" "audio.mp3"
        "out.mp4").argv ∧
    "+faststart" ∉ overlay_write_invocation.ffmpeg_params :=
  faststart_placement false "list.txt" "audio.mp3" "out.mp4"

/-! ## Split-audio request validation -/

/-- The `parts` field validator of `SplitAudioRequest`
(`app/main.py` 150-157): pydantic runs it while parsing the request body,
before the endpoint body (download and segmentation) executes; a raised
`ValueError` becomes a 422 validation error. -/
def validate_parts (v : ℤ) : Except String ℤ :=
  if v < 2 then .error "parts must be at least 2"
  else if v > 100 then .error "parts cannot exceed 100"
  else .ok v

/-- C10: the `parts` validator accepts exactly `2 ≤ parts ≤ 100`: anything
outside is rejected with a validation error (hence, pydantic rejecting the
request before the endpoint body runs, no download or segmentation happens),
even though the segmentation algorithm itself places no upper bound on `N` —
`smart_split_audio` still returns exactly `101` segments when asked for
`101` parts. -/
theorem split_audio_parts_validation :
    (∀ v : ℤ, (∃ w, validate_parts v = Except.ok w) ↔ (2 ≤ v ∧ v ≤ 100)) ∧
    (∀ v : ℤ, 2 ≤ v → v ≤ 100 → validate_parts v = Except.ok v) ∧
    (∀ (T : ℚ) (silences : List (ℚ × ℚ)),
      (smart_split_audio T 101 silences).length = 101) := by
  refine ⟨?_, ?_, ?_⟩
  · intro v
    constructor
    · rintro ⟨w, hw⟩
      unfold validate_parts at hw
      by_cases h2 : v < 2
      · rw [if_pos h2] at hw; cases hw
      · rw [if_neg h2] at hw
        by_cases h100 : v > 100
        · rw [if_pos h100] at hw; cases hw
        · exact ⟨by omega, by omega⟩
    · rintro ⟨h2, h100⟩
      refine ⟨v, ?_⟩
      unfold validate_parts
      rw [if_neg (by omega), if_neg (by omega)]
  · intro v h2 h100
    unfold validate_parts
    rw [if_neg (by omega), if_neg (by omega)]
  · intro T silences
    rw [smart_split_audio, splitLoop_length]

/-- Witness for `split_audio_parts_validation` at concrete part counts. -/
theorem split_audio_parts_validation_witness :
    validate_parts 1 = Except.error "parts must be at least 2" ∧
    validate_parts 101 = Except.error "parts cannot exceed 100" ∧
    validate_parts 2 = Except.ok 2 ∧
    validate_parts 100 = Except.ok 100 ∧
    (smart_split_audio 1000 101 []).length = 101 := by
  refine ⟨rfl, rfl, ?_, ?_, ?_⟩
  · exact (split_audio_parts_validation.2.1 2 (by norm_num) (by norm_num))
  · exact (split_audio_parts_validation.2.1 100 (by norm_num) (by norm_num))
  · exact split_audio_parts_validation.2.2 1000 []

end FastAPIBackend
